import Mathlib

/- Shallow embedding of the Battlesnake decision engine (src/api/index.py).

The transport shell (Flask routes, JSON marshaling) is out of scope; the
embedding covers the `MovementStrategy` class and the `move` function.
Python floats carry only exact half-integer values here (all penalties and
bonuses are integers or integer halves, far below 2^52), so scores are
modelled exactly as rationals, with the `float('-inf')` sentinel as a
separate constructor.  Python's `set` of visited cells is modelled as a
`Finset`; the unbounded recursion of `flood_fill_recursive` is modelled
with a fuel parameter that is larger than the number of board cells, which
the correctness lemmas below show is enough for the recursion never to be
cut short.  Snake ids (strings in the JSON) are modelled as naturals:
only equality of ids is ever used.  List indexing `body[0]` is modelled
with `headD`: the data-model invariant says every body is nonempty. -/

/-- Compass directions, in the enumeration order of the source
(`Direction.UP, DOWN, LEFT, RIGHT`). -/
inductive Direction where
  | UP : Direction
  | DOWN : Direction
  | LEFT : Direction
  | RIGHT : Direction
deriving DecidableEq

/-- Grid cell with integer coordinates (class `Position`). -/
structure Position where
  x : Int
  y : Int
deriving DecidableEq

/-- One snake: identity and body from head (index 0) to tail (last index). -/
structure Snake where
  id : Nat
  body : List Position
deriving DecidableEq

/-- One decoded game-state snapshot, as read by `MovementStrategy.__init__`:
board dimensions, all snakes, food, the acting snake (`you`) and its health. -/
structure GameState where
  width : Int
  height : Int
  snakes : List Snake
  food : List Position
  you : Snake
  health : Int
deriving DecidableEq

/-- Score of one direction: either the `float('-inf')` sentinel or a finite
(rational-valued) score. -/
inductive Score where
  | ninf : Score
  | val : ℚ → Score
deriving DecidableEq

/-- Strict comparison of scores, as Python's `<` on floats with `-inf`. -/
def Score.ltb : Score → Score → Bool
  | _, Score.ninf => false
  | Score.ninf, Score.val _ => true
  | Score.val a, Score.val b => decide (a < b)

/-- Head of a snake (`body[0]`). -/
def snake_head (s : Snake) : Position := s.body.headD ⟨0, 0⟩

/-- The acting snake's head (`self.my_head`). -/
def my_head (g : GameState) : Position := snake_head g.you

/-- The acting snake's body length (`self.my_length`). -/
def my_length (g : GameState) : Nat := g.you.body.length

/-- All snakes whose id differs from the acting snake's id
(`self.opponents`). -/
def opponents (g : GameState) : List Snake :=
  g.snakes.filter (fun s => s.id != g.you.id)

/-- Candidate head position for a direction (`_get_next_position`). -/
def get_next_position (g : GameState) (d : Direction) : Position :=
  match d with
  | Direction.UP => ⟨(my_head g).x, (my_head g).y + 1⟩
  | Direction.DOWN => ⟨(my_head g).x, (my_head g).y - 1⟩
  | Direction.LEFT => ⟨(my_head g).x - 1, (my_head g).y⟩
  | Direction.RIGHT => ⟨(my_head g).x + 1, (my_head g).y⟩

/-- Board-boundary check (`_is_valid_position`). -/
def is_valid_position (g : GameState) (p : Position) : Bool :=
  decide (0 ≤ p.x ∧ p.x < g.width ∧ 0 ≤ p.y ∧ p.y < g.height)

/-- Manhattan distance between two cells. -/
def manhattan (p q : Position) : Int := |p.x - q.x| + |p.y - q.y|

/-- Adjacency check (`_is_adjacent`): Manhattan distance exactly 1. -/
def is_adjacent (p q : Position) : Bool := decide (manhattan p q = 1)

/-- The cells marked as obstacles on the flood-fill board
(`_calculate_flood_fill`, marking loop): every snake's full body, except
that a snake with the acting snake's id loses its tail segment when the
acting snake's health is below 100. -/
def flood_obstacles (g : GameState) : List Position :=
  g.snakes.flatMap (fun s =>
    if s.id = g.you.id ∧ g.health < 100 then s.body.dropLast else s.body)

/-- The recursion `flood_fill_recursive(x, y, visited)` of the source, with
the mutable visited set threaded through and a fuel parameter standing in
for the unbounded Python call stack.  The neighbor order `(0,1), (0,-1),
(1,0), (-1,0)` is the source's.  Returns the counted space together with
the final visited set. -/
def ffRec (g : GameState) : Nat → Position → Finset Position → Nat × Finset Position
  | 0, _, visited => (0, visited)
  | Nat.succ fuel, p, visited =>
    if p ∈ visited then (0, visited)
    else if ¬ (is_valid_position g p = true) then (0, visited)
    else if p ∈ flood_obstacles g then (0, visited)
    else
      let v0 := insert p visited
      let r1 := ffRec g fuel ⟨p.x, p.y + 1⟩ v0
      let r2 := ffRec g fuel ⟨p.x, p.y - 1⟩ r1.2
      let r3 := ffRec g fuel ⟨p.x + 1, p.y⟩ r2.2
      let r4 := ffRec g fuel ⟨p.x - 1, p.y⟩ r3.2
      (1 + r1.1 + r2.1 + r3.1 + r4.1, r4.2)

/-- Available space from a start position (`_calculate_flood_fill`): run the
recursion with an empty visited set.  The fuel `width*height + 1` exceeds
the number of board cells, so the recursion is never cut short (proved in
the flood-fill lemmas below). -/
def calculate_flood_fill (g : GameState) (start_pos : Position) : Nat :=
  (ffRec g (g.width.toNat * g.height.toNat + 1) start_pos ∅).1

/-- First (shadowed) definition of `_calculate_position_safety`
(lines 109-143): 75-point head-to-head penalty, 10-per-cell space penalty
under strict `space < length`, 20-point wall penalties, no space bonus.
In Python the later definition of the same method name silently replaces
this one, so it never executes. -/
def calculate_position_safety_first (g : GameState) (pos : Position) : Score :=
  if g.snakes.any (fun s => s.body.dropLast.any (fun seg => decide (seg = pos))) then
    Score.ninf
  else
    let afterH2H : ℚ := (opponents g).foldl (fun acc opp =>
      if is_adjacent pos (snake_head opp) then
        if my_length g ≤ opp.body.length then acc - 75 else acc + 25
      else acc) 100
    let space : ℚ := (calculate_flood_fill g pos : ℚ)
    let afterSpace : ℚ :=
      if space < (my_length g : ℚ) then afterH2H - ((my_length g : ℚ) - space) * 10
      else afterH2H
    let afterX : ℚ :=
      if pos.x = 0 ∨ pos.x = g.width - 1 then afterSpace - 20 else afterSpace
    let afterY : ℚ :=
      if pos.y = 0 ∨ pos.y = g.height - 1 then afterX - 20 else afterX
    Score.val afterY

/-- Second, governing definition of `_calculate_position_safety`
(lines 175-215): immediate-collision rejection, flood-fill space step
(30-per-cell penalty when `space <= length`, `min(50, space/2)` bonus
otherwise), 150/25 head-to-head step, 10-point wall penalties.  This is
the definition Python keeps for the method name. -/
def calculate_position_safety (g : GameState) (pos : Position) : Score :=
  if g.snakes.any (fun s => s.body.dropLast.any (fun seg => decide (seg = pos))) then
    Score.ninf
  else
    let space : ℚ := (calculate_flood_fill g pos : ℚ)
    let afterSpace : ℚ :=
      if space ≤ (my_length g : ℚ) then
        100 - max 0 (((my_length g : ℚ) - space) * 30)
      else 100 + min 50 (space / 2)
    let afterH2H : ℚ := (opponents g).foldl (fun acc opp =>
      if is_adjacent pos (snake_head opp) then
        if my_length g ≤ opp.body.length then acc - 150 else acc + 25
      else acc) afterSpace
    let afterX : ℚ :=
      if pos.x = 0 ∨ pos.x = g.width - 1 then afterH2H - 10 else afterH2H
    let afterY : ℚ :=
      if pos.y = 0 ∨ pos.y = g.height - 1 then afterX - 10 else afterX
    Score.val afterY

/-- Base safety scores of the four directions (`get_safe_moves`): the
sentinel for an off-board candidate, otherwise the (governing) position
safety of the candidate. -/
def get_safe_moves (g : GameState) : Direction → Score := fun d =>
  if is_valid_position g (get_next_position g d) then
    calculate_position_safety g (get_next_position g d)
  else Score.ninf

/-- Health-dependent food weight (`evaluate_food_moves`, weight choice). -/
def food_weight (g : GameState) : ℚ :=
  if g.health < 50 then 2 else if g.health < 75 then 1 else 1 / 2

/-- Closest food pellet to a position (`_find_closest_food`): scan the food
list keeping the first strictly-smaller distance. -/
def find_closest_food (g : GameState) (pos : Position) : Option Position :=
  g.food.foldl (fun closest f =>
    match closest with
    | none => some f
    | some c => if manhattan pos f < manhattan pos c then some f else closest) none

/-- Contest check (`_am_closest_to_food`): false iff some opponent's head is
strictly closer to the food than the acting snake's current head. -/
def am_closest_to_food (g : GameState) (food : Position) : Bool :=
  (opponents g).all (fun opp =>
    !(decide (manhattan (snake_head opp) food < manhattan (my_head g) food)))

/-- Food score of a candidate position (`_calculate_food_score`):
`max(50 - distance * 5, 0)`. -/
def calculate_food_score (pos food : Position) : ℚ :=
  max (50 - (manhattan pos food : ℚ) * 5) 0

/-- Food adjustment (`evaluate_food_moves`): sentinel directions are
skipped; otherwise the first-minimal food pellet, when one exists and is
uncontested, adds its weighted food score. -/
def evaluate_food_moves (g : GameState) (base : Direction → Score) :
    Direction → Score := fun d =>
  match base d with
  | Score.ninf => Score.ninf
  | Score.val q =>
    match find_closest_food g (get_next_position g d) with
    | none => Score.val q
    | some f =>
      if am_closest_to_food g f then
        Score.val (q + calculate_food_score (get_next_position g d) f * food_weight g)
      else Score.val q

/-- The scores the final selection ranges over (`move`: safety scores then
food adjustment). -/
def final_moves (g : GameState) : Direction → Score :=
  evaluate_food_moves g (get_safe_moves g)

/-- The decision (`move`): Python's `max` over the dict items in insertion
order UP, DOWN, LEFT, RIGHT, keeping the current best unless a strictly
greater score appears, hence returning the first maximal direction. -/
def decideMove (g : GameState) : Direction :=
  let moves := final_moves g
  [Direction.DOWN, Direction.LEFT, Direction.RIGHT].foldl
    (fun best d => if Score.ltb (moves best) (moves d) then d else best)
    Direction.UP

/-- Position of a direction in the enumeration order of the source. -/
def dir_index : Direction → Nat
  | Direction.UP => 0
  | Direction.DOWN => 1
  | Direction.LEFT => 2
  | Direction.RIGHT => 3

/- Specification-side definitions, used to state what the code computes. -/

/-- A cell is free when it is on the board and not a flood-fill obstacle
(Boolean form). -/
def free_cellb (g : GameState) (p : Position) : Bool :=
  is_valid_position g p && !(decide (p ∈ flood_obstacles g))

/-- A cell is free when it is on the board and not a flood-fill obstacle. -/
def free_cell (g : GameState) (p : Position) : Prop := free_cellb g p = true

instance (g : GameState) (p : Position) : Decidable (free_cell g p) :=
  inferInstanceAs (Decidable (free_cellb g p = true))

/-- The four 4-connected neighbor cells, in the source's exploration
order. -/
def neighbor_cells (p : Position) : List Position :=
  [⟨p.x, p.y + 1⟩, ⟨p.x, p.y - 1⟩, ⟨p.x + 1, p.y⟩, ⟨p.x - 1, p.y⟩]

/-- One 4-directional move between free cells. -/
def step_free (g : GameState) (a b : Position) : Prop :=
  free_cell g a ∧ free_cell g b ∧ b ∈ neighbor_cells a

/-- The cells reachable from `start` by 4-directional moves that stay on
the board and never enter an obstacle cell. -/
def reach_set (g : GameState) (start : Position) : Set Position :=
  {q | Relation.ReflTransGen (step_free g) start q ∧ free_cell g q}

/-- All board cells, as a finite set. -/
def board_finset (g : GameState) : Finset Position :=
  (Finset.range g.width.toNat ×ˢ Finset.range g.height.toNat).image
    (fun q => ⟨(q.1 : Int), (q.2 : Int)⟩)

/-- All free board cells, as a finite set. -/
def free_finset (g : GameState) : Finset Position :=
  (board_finset g).filter (fun p => free_cellb g p = true)

/-- Immediate collision: the candidate position coincides with a body
segment, excluding the tail segment, of some snake. -/
def has_body_collision (g : GameState) (pos : Position) : Prop :=
  ∃ s ∈ g.snakes, pos ∈ s.body.dropLast

instance (g : GameState) (pos : Position) : Decidable (has_body_collision g pos) :=
  inferInstanceAs (Decidable (∃ s ∈ g.snakes, pos ∈ s.body.dropLast))

/-- Head-to-head contribution of one opponent to a candidate's score:
−150 when the opponent's head is 4-adjacent and the acting snake is not
longer, +25 when it is adjacent and the acting snake is longer. -/
def h2h_contrib (g : GameState) (pos : Position) (opp : Snake) : ℚ :=
  if manhattan pos (snake_head opp) = 1 then
    if my_length g ≤ opp.body.length then -150 else 25
  else 0

/-- Total head-to-head adjustment over all opponents. -/
def h2h_total (g : GameState) (pos : Position) : ℚ :=
  ((opponents g).map (h2h_contrib g pos)).sum

/-- Wall-proximity penalty: 10 on a vertical edge column plus 10 on a
horizontal edge row. -/
def wall_penalty (g : GameState) (pos : Position) : ℚ :=
  (if pos.x = 0 ∨ pos.x = g.width - 1 then 10 else 0) +
  (if pos.y = 0 ∨ pos.y = g.height - 1 then 10 else 0)

/-- Reachable-space adjustment: subtract `30 * (length - space)` when
`space ≤ length`, add `min(50, space / 2)` otherwise. -/
def space_adjust (g : GameState) (pos : Position) : ℚ :=
  if (calculate_flood_fill g pos : ℚ) ≤ (my_length g : ℚ) then
    -(30 * ((my_length g : ℚ) - (calculate_flood_fill g pos : ℚ)))
  else min 50 ((calculate_flood_fill g pos : ℚ) / 2)

/-- Modelled from the spec: the safety scoring rule of §4.4 — start at 100,
immediate-collision rejection, a flood-fill space step, a ±150/25
head-to-head step, and 10-point wall penalties. -/
def spec_position_safety (g : GameState) (pos : Position) : Score :=
  if has_body_collision g pos then Score.ninf
  else Score.val (100 + space_adjust g pos + h2h_total g pos - wall_penalty g pos)

/- Concrete snapshots used to instantiate theorems with hypotheses. -/

/-- Degenerate well-formed snapshot (1×1 board): all four directions are
off-board, so every score is the sentinel and the tie-break returns UP. -/
def gOne : GameState :=
  { width := 1, height := 1, snakes := [⟨0, [⟨0, 0⟩]⟩], food := [],
    you := ⟨0, [⟨0, 0⟩]⟩, health := 100 }

/-- Corner snapshot: UP collides with an opponent body, DOWN and LEFT are
off-board, so RIGHT is the only direction without the sentinel. -/
def gCorner : GameState :=
  { width := 3, height := 3, snakes := [⟨0, [⟨0, 0⟩]⟩, ⟨1, [⟨0, 1⟩, ⟨0, 2⟩]⟩],
    food := [], you := ⟨0, [⟨0, 0⟩]⟩, health := 100 }

/-- Snapshot with one snake whose body splits the 3×3 board into two
components, used against the naive `w*h - obstacles` flood-fill claim. -/
def gSplit : GameState :=
  { width := 3, height := 3, snakes := [⟨0, [⟨1, 2⟩, ⟨1, 1⟩, ⟨1, 0⟩]⟩],
    food := [], you := ⟨0, [⟨1, 2⟩, ⟨1, 1⟩, ⟨1, 0⟩]⟩, health := 100 }

/-- Snapshot with a connected free region (3×3 board, two obstacle cells),
used to witness the amended flood-fill count claim. -/
def gConn : GameState :=
  { width := 3, height := 3, snakes := [⟨0, [⟨0, 0⟩, ⟨1, 0⟩]⟩],
    food := [], you := ⟨0, [⟨0, 0⟩, ⟨1, 0⟩]⟩, health := 100 }

/-- Snapshot on which the shadowed first safety definition and the
governing one disagree (lone length-1 snake in the open). -/
def gTwo : GameState :=
  { width := 5, height := 5, snakes := [⟨0, [⟨2, 2⟩]⟩], food := [],
    you := ⟨0, [⟨2, 2⟩]⟩, health := 50 }

/-- Snapshot whose snake walls off the bottom row (health 100, so the tail
stays an obstacle): space 3 for a length-3 snake. -/
def gRow : GameState :=
  { width := 3, height := 3, snakes := [⟨0, [⟨0, 1⟩, ⟨1, 1⟩, ⟨2, 1⟩]⟩],
    food := [], you := ⟨0, [⟨0, 1⟩, ⟨1, 1⟩, ⟨2, 1⟩]⟩, health := 100 }

/-- Snapshot with one longer opponent whose head is adjacent to the
candidate cell `(2,3)`. -/
def gAdj : GameState :=
  { width := 5, height := 5,
    snakes := [⟨0, [⟨2, 2⟩]⟩, ⟨1, [⟨2, 4⟩, ⟨3, 4⟩]⟩], food := [],
    you := ⟨0, [⟨2, 2⟩]⟩, health := 100 }

/-- Snapshot with food and no opponents, used to witness the food
adjustment. -/
def gFood : GameState :=
  { width := 5, height := 5, snakes := [⟨0, [⟨2, 2⟩]⟩], food := [⟨0, 0⟩],
    you := ⟨0, [⟨2, 2⟩]⟩, health := 60 }

/-- Snapshot where the candidate cell `(3,3)` is an opponent's tail: an
obstacle for the flood fill but not an immediate collision. -/
def gTail : GameState :=
  { width := 5, height := 5,
    snakes := [⟨0, [⟨2, 2⟩]⟩, ⟨1, [⟨4, 4⟩, ⟨4, 3⟩, ⟨3, 3⟩]⟩], food := [],
    you := ⟨0, [⟨2, 2⟩]⟩, health := 50 }

/- Ordering lemmas for scores (needed for the max-selection analysis). -/

theorem Score.ltb_irrefl (a : Score) : Score.ltb a a = false := by
  cases a <;> simp [Score.ltb]

theorem Score.ltb_asymm {a b : Score} (h : Score.ltb a b = true) :
    Score.ltb b a = false := by
  cases a <;> cases b <;> simp_all [Score.ltb] <;> linarith

theorem Score.ltb_trans {a b c : Score} (h1 : Score.ltb a b = true)
    (h2 : Score.ltb b c = true) : Score.ltb a c = true := by
  cases a <;> cases b <;> cases c <;> simp_all [Score.ltb] <;> linarith

theorem Score.ltb_lt_of_le_of_lt {a b c : Score} (h1 : Score.ltb a b = false)
    (h2 : Score.ltb a c = true) : Score.ltb b c = true := by
  cases a <;> cases b <;> cases c <;> simp_all [Score.ltb] <;> linarith

theorem Score.ltb_lt_of_lt_of_le {a b c : Score} (h1 : Score.ltb a b = true)
    (h2 : Score.ltb c b = false) : Score.ltb a c = true := by
  cases a <;> cases b <;> cases c <;> simp_all [Score.ltb] <;> linarith

theorem Score.ltb_le_trans {a b c : Score} (h1 : Score.ltb a b = false)
    (h2 : Score.ltb b c = false) : Score.ltb a c = false := by
  cases a <;> cases b <;> cases c <;> simp_all [Score.ltb] <;> linarith

/- Characterization of the safety scorer. -/

theorem collision_bool (g : GameState) (pos : Position) :
    (g.snakes.any fun s => s.body.dropLast.any fun seg => decide (seg = pos)) = true ↔
      has_body_collision g pos := by
  simp only [has_body_collision, List.any_eq_true, decide_eq_true_eq]
  constructor
  · rintro ⟨s, hs, seg, hseg, rfl⟩
    exact ⟨s, hs, hseg⟩
  · rintro ⟨s, hs, hmem⟩
    exact ⟨s, hs, pos, hmem, rfl⟩

theorem safety_ninf_iff (g : GameState) (pos : Position) :
    calculate_position_safety g pos = Score.ninf ↔ has_body_collision g pos := by
  rw [← collision_bool g pos]
  unfold calculate_position_safety
  split_ifs with h
  · simp [h]
  · simp [h]

theorem h2h_foldl (g : GameState) (pos : Position) (l : List Snake) (init : ℚ) :
    l.foldl (fun acc opp =>
      if is_adjacent pos (snake_head opp) then
        if my_length g ≤ opp.body.length then acc - 150 else acc + 25
      else acc) init = init + (l.map (h2h_contrib g pos)).sum := by
  induction l generalizing init with
  | nil => simp
  | cons a tl ih =>
    simp only [List.foldl_cons, List.map_cons, List.sum_cons]
    rw [ih]
    unfold h2h_contrib is_adjacent
    simp only [decide_eq_true_eq]
    split_ifs <;> ring

theorem safety_decomp (g : GameState) (pos : Position)
    (h : ¬ has_body_collision g pos) :
    calculate_position_safety g pos =
      Score.val (100 + space_adjust g pos + h2h_total g pos - wall_penalty g pos) := by
  unfold calculate_position_safety
  rw [if_neg (fun hh => h ((collision_bool g pos).1 hh))]
  simp only [Score.val.injEq]
  rw [h2h_foldl]
  have hsp : (if ((calculate_flood_fill g pos : ℚ)) ≤ ((my_length g : ℚ)) then
        (100 : ℚ) - max 0 (((my_length g : ℚ) - (calculate_flood_fill g pos : ℚ)) * 30)
      else 100 + min 50 ((calculate_flood_fill g pos : ℚ) / 2)) =
      100 + space_adjust g pos := by
    unfold space_adjust
    split_ifs with hle
    · rw [max_eq_right (mul_nonneg (sub_nonneg.2 hle) (by norm_num))]
      ring
    · ring
  rw [hsp]
  unfold h2h_total wall_penalty
  split_ifs <;> ring

theorem safety_eq_spec (g : GameState) (pos : Position) :
    calculate_position_safety g pos = spec_position_safety g pos := by
  by_cases h : has_body_collision g pos
  · rw [(safety_ninf_iff g pos).2 h]
    unfold spec_position_safety
    rw [if_pos h]
  · rw [safety_decomp g pos h]
    unfold spec_position_safety
    rw [if_neg h]

theorem get_safe_moves_ninf_iff (g : GameState) (d : Direction) :
    get_safe_moves g d = Score.ninf ↔
      (¬ is_valid_position g (get_next_position g d) = true ∨
        has_body_collision g (get_next_position g d)) := by
  unfold get_safe_moves
  split_ifs with h
  · rw [safety_ninf_iff]
    simp [h]
  · simp [h]

theorem evaluate_food_ninf_iff (g : GameState) (base : Direction → Score)
    (d : Direction) :
    evaluate_food_moves g base d = Score.ninf ↔ base d = Score.ninf := by
  unfold evaluate_food_moves
  cases hb : base d with
  | ninf => simp
  | val q =>
    cases find_closest_food g (get_next_position g d) with
    | none => simp
    | some f =>
      by_cases hfa : am_closest_to_food g f = true
      · simp [hfa]
      · simp [hfa]

/- Flood-fill lemmas: the fueled recursion computes exactly the number of
free cells reachable from the start. -/

theorem free_cell_iff (g : GameState) (p : Position) :
    free_cell g p ↔ (is_valid_position g p = true ∧ p ∉ flood_obstacles g) := by
  simp [free_cell, free_cellb, Bool.and_eq_true, Bool.not_eq_true',
    decide_eq_false_iff_not]

theorem mem_board_finset (g : GameState) (p : Position) :
    p ∈ board_finset g ↔ is_valid_position g p = true := by
  obtain ⟨x, y⟩ := p
  unfold board_finset is_valid_position
  simp only [Finset.mem_image, Finset.mem_product, Finset.mem_range,
    decide_eq_true_eq, Prod.exists, Position.mk.injEq]
  constructor
  · rintro ⟨a, b, ⟨ha, hb⟩, hx, hy⟩
    refine ⟨?_, ?_, ?_, ?_⟩ <;> omega
  · rintro ⟨h1, h2, h3, h4⟩
    exact ⟨x.toNat, y.toNat, ⟨by omega, by omega⟩, by omega, by omega⟩

theorem mem_free_finset (g : GameState) (p : Position) :
    p ∈ free_finset g ↔ free_cell g p := by
  unfold free_finset
  rw [Finset.mem_filter, mem_board_finset, free_cell_iff]
  simp [free_cellb, Bool.and_eq_true, Bool.not_eq_true', decide_eq_false_iff_not]

theorem free_finset_card_le (g : GameState) :
    (free_finset g).card ≤ g.width.toNat * g.height.toNat := by
  calc (free_finset g).card ≤ (board_finset g).card := Finset.card_filter_le _ _
    _ ≤ (Finset.range g.width.toNat ×ˢ Finset.range g.height.toNat).card :=
        Finset.card_image_le
    _ = g.width.toNat * g.height.toNat := by
        rw [Finset.card_product, Finset.card_range, Finset.card_range]

theorem ffRec_zero (g : GameState) (p : Position) (V : Finset Position) :
    ffRec g 0 p V = (0, V) := rfl

theorem ffRec_stop (g : GameState) (fuel : Nat) (p : Position) (V : Finset Position)
    (h : p ∈ V ∨ ¬ (is_valid_position g p = true) ∨ p ∈ flood_obstacles g) :
    ffRec g (fuel + 1) p V = (0, V) := by
  simp only [ffRec]
  split_ifs with a b c <;> first | rfl | tauto

theorem ffRec_succ_else (g : GameState) (fuel : Nat) (p : Position)
    (V : Finset Position) (h1 : p ∉ V) (h2 : is_valid_position g p = true)
    (h3 : p ∉ flood_obstacles g) :
    ffRec g (fuel + 1) p V =
      (1 + (ffRec g fuel ⟨p.x, p.y + 1⟩ (insert p V)).1 +
        (ffRec g fuel ⟨p.x, p.y - 1⟩
          (ffRec g fuel ⟨p.x, p.y + 1⟩ (insert p V)).2).1 +
        (ffRec g fuel ⟨p.x + 1, p.y⟩
          (ffRec g fuel ⟨p.x, p.y - 1⟩
            (ffRec g fuel ⟨p.x, p.y + 1⟩ (insert p V)).2).2).1 +
        (ffRec g fuel ⟨p.x - 1, p.y⟩
          (ffRec g fuel ⟨p.x + 1, p.y⟩
            (ffRec g fuel ⟨p.x, p.y - 1⟩
              (ffRec g fuel ⟨p.x, p.y + 1⟩ (insert p V)).2).2).2).1,
        (ffRec g fuel ⟨p.x - 1, p.y⟩
          (ffRec g fuel ⟨p.x + 1, p.y⟩
            (ffRec g fuel ⟨p.x, p.y - 1⟩
              (ffRec g fuel ⟨p.x, p.y + 1⟩ (insert p V)).2).2).2).2) := by
  simp only [ffRec]
  rw [if_neg h1, if_neg (by simp [h2]), if_neg h3]

theorem ffRec_mono (g : GameState) :
    ∀ (fuel : Nat) (p : Position) (V : Finset Position), V ⊆ (ffRec g fuel p V).2 := by
  intro fuel
  induction fuel with
  | zero => intro p V; exact Finset.Subset.refl V
  | succ fuel ih =>
    intro p V
    by_cases hstop : p ∈ V ∨ ¬ (is_valid_position g p = true) ∨ p ∈ flood_obstacles g
    · rw [ffRec_stop g fuel p V hstop]
    · push_neg at hstop
      obtain ⟨h1, h2, h3⟩ := hstop
      rw [ffRec_succ_else g fuel p V h1 h2 h3]
      exact (Finset.subset_insert p V).trans
        ((ih _ _).trans ((ih _ _).trans ((ih _ _).trans (ih _ _))))

theorem ffRec_sound (g : GameState) :
    ∀ (fuel : Nat) (p : Position) (V : Finset Position),
      (ffRec g fuel p V).2 ⊆ V ∪ free_finset g := by
  intro fuel
  induction fuel with
  | zero => intro p V; exact Finset.subset_union_left
  | succ fuel ih =>
    intro p V
    by_cases hstop : p ∈ V ∨ ¬ (is_valid_position g p = true) ∨ p ∈ flood_obstacles g
    · rw [ffRec_stop g fuel p V hstop]
      exact Finset.subset_union_left
    · push_neg at hstop
      obtain ⟨h1, h2, h3⟩ := hstop
      have hv : is_valid_position g p = true := h2
      have hpF : p ∈ free_finset g :=
        (mem_free_finset g p).2 ((free_cell_iff g p).2 ⟨hv, h3⟩)
      rw [ffRec_succ_else g fuel p V h1 hv h3]
      have key : ∀ (q : Position) (W : Finset Position),
          W ⊆ V ∪ free_finset g → (ffRec g fuel q W).2 ⊆ V ∪ free_finset g := by
        intro q W hW x hx
        rcases Finset.mem_union.1 (ih q W hx) with h | h
        · exact hW h
        · exact Finset.mem_union_right _ h
      have hv0 : insert p V ⊆ V ∪ free_finset g := by
        intro x hx
        rcases Finset.mem_insert.1 hx with rfl | hx
        · exact Finset.mem_union_right _ hpF
        · exact Finset.mem_union_left _ hx
      exact key _ _ (key _ _ (key _ _ (key _ _ hv0)))

theorem card_sdiff_chain {α : Type} [DecidableEq α] {A B C : Finset α}
    (hAB : A ⊆ B) (hBC : B ⊆ C) :
    (C \ A).card = (C \ B).card + (B \ A).card := by
  have hu : C \ A = (C \ B) ∪ (B \ A) := by
    ext x
    simp only [Finset.mem_sdiff, Finset.mem_union]
    constructor
    · rintro ⟨hxC, hxA⟩
      by_cases hxB : x ∈ B
      · exact Or.inr ⟨hxB, hxA⟩
      · exact Or.inl ⟨hxC, hxB⟩
    · rintro (⟨hxC, hxB⟩ | ⟨hxB, hxA⟩)
      · exact ⟨hxC, fun hxA => hxB (hAB hxA)⟩
      · exact ⟨hBC hxB, hxA⟩
  rw [hu, Finset.card_union_of_disjoint]
  exact Finset.disjoint_left.2
    (fun x hx1 hx2 => (Finset.mem_sdiff.1 hx1).2 (Finset.mem_sdiff.1 hx2).1)

theorem ffRec_count (g : GameState) :
    ∀ (fuel : Nat) (p : Position) (V : Finset Position),
      (ffRec g fuel p V).1 = ((ffRec g fuel p V).2 \ V).card := by
  intro fuel
  induction fuel with
  | zero => intro p V; simp [ffRec_zero]
  | succ fuel ih =>
    intro p V
    by_cases hstop : p ∈ V ∨ ¬ (is_valid_position g p = true) ∨ p ∈ flood_obstacles g
    · rw [ffRec_stop g fuel p V hstop]
      simp
    · push_neg at hstop
      obtain ⟨h1, h2, h3⟩ := hstop
      rw [ffRec_succ_else g fuel p V h1 h2 h3]
      set v0 := insert p V with hv0
      set r1 := ffRec g fuel ⟨p.x, p.y + 1⟩ v0 with hr1
      set r2 := ffRec g fuel ⟨p.x, p.y - 1⟩ r1.2 with hr2
      set r3 := ffRec g fuel ⟨p.x + 1, p.y⟩ r2.2 with hr3
      set r4 := ffRec g fuel ⟨p.x - 1, p.y⟩ r3.2 with hr4
      show 1 + r1.1 + r2.1 + r3.1 + r4.1 = (r4.2 \ V).card
      have m0 : V ⊆ v0 := Finset.subset_insert p V
      have m1 : v0 ⊆ r1.2 := by rw [hr1]; exact ffRec_mono g fuel _ _
      have m2 : r1.2 ⊆ r2.2 := by rw [hr2]; exact ffRec_mono g fuel _ _
      have m3 : r2.2 ⊆ r3.2 := by rw [hr3]; exact ffRec_mono g fuel _ _
      have m4 : r3.2 ⊆ r4.2 := by rw [hr4]; exact ffRec_mono g fuel _ _
      have c1 : r1.1 = (r1.2 \ v0).card := by rw [hr1]; exact ih _ _
      have c2 : r2.1 = (r2.2 \ r1.2).card := by rw [hr2]; exact ih _ _
      have c3 : r3.1 = (r3.2 \ r2.2).card := by rw [hr3]; exact ih _ _
      have c4 : r4.1 = (r4.2 \ r3.2).card := by rw [hr4]; exact ih _ _
      have e4 : (r4.2 \ V).card = (r4.2 \ r3.2).card + (r3.2 \ V).card :=
        card_sdiff_chain (m0.trans (m1.trans (m2.trans m3))) m4
      have e3 : (r3.2 \ V).card = (r3.2 \ r2.2).card + (r2.2 \ V).card :=
        card_sdiff_chain (m0.trans (m1.trans m2)) m3
      have e2 : (r2.2 \ V).card = (r2.2 \ r1.2).card + (r1.2 \ V).card :=
        card_sdiff_chain (m0.trans m1) m2
      have e1 : (r1.2 \ V).card = (r1.2 \ v0).card + (v0 \ V).card :=
        card_sdiff_chain m0 m1
      have ep : (v0 \ V).card = 1 := by
        have hins : v0 \ V = {p} := by
          rw [hv0]
          ext x
          simp only [Finset.mem_sdiff, Finset.mem_insert, Finset.mem_singleton]
          constructor
          · rintro ⟨rfl | hx, hnx⟩
            · rfl
            · exact absurd hx hnx
          · rintro rfl
            exact ⟨Or.inl rfl, h1⟩
        rw [hins, Finset.card_singleton]
      omega

theorem rtg_lift (g : GameState) {p nb q : Position} (hp : free_cell g p)
    (hnb : nb ∈ neighbor_cells p) (hq : free_cell g q)
    (h : Relation.ReflTransGen (step_free g) nb q) :
    Relation.ReflTransGen (step_free g) p q := by
  rcases Relation.ReflTransGen.cases_head h with heq | ⟨c, hstep, hrest⟩
  · subst heq
    exact Relation.ReflTransGen.single ⟨hp, hq, hnb⟩
  · exact Relation.ReflTransGen.head ⟨hp, hstep.1, hnb⟩ h

theorem ffRec_start (g : GameState) (fuel : Nat) (p : Position)
    (V : Finset Position) (hfuel : 1 ≤ fuel) (hp : free_cell g p) :
    p ∈ (ffRec g fuel p V).2 := by
  obtain ⟨h2, h3⟩ := (free_cell_iff g p).1 hp
  cases fuel with
  | zero => omega
  | succ fuel =>
    by_cases h1 : p ∈ V
    · rw [ffRec_stop g fuel p V (Or.inl h1)]
      exact h1
    · rw [ffRec_succ_else g fuel p V h1 h2 h3]
      exact ffRec_mono g fuel _ _ (ffRec_mono g fuel _ _ (ffRec_mono g fuel _ _
        (ffRec_mono g fuel _ _ (Finset.mem_insert_self p V))))

theorem ffRec_reach (g : GameState) :
    ∀ (fuel : Nat) (p : Position) (V : Finset Position) (q : Position),
      q ∈ (ffRec g fuel p V).2 → q ∉ V →
      Relation.ReflTransGen (step_free g) p q := by
  intro fuel
  induction fuel with
  | zero =>
    intro p V q hq hnq
    rw [ffRec_zero] at hq
    exact absurd hq hnq
  | succ fuel ih =>
    intro p V q hq hnq
    by_cases hstop : p ∈ V ∨ ¬ (is_valid_position g p = true) ∨ p ∈ flood_obstacles g
    · rw [ffRec_stop g fuel p V hstop] at hq
      exact absurd hq hnq
    · push_neg at hstop
      obtain ⟨h1, h2, h3⟩ := hstop
      have hpf : free_cell g p := (free_cell_iff g p).2 ⟨h2, h3⟩
      rw [ffRec_succ_else g fuel p V h1 h2 h3] at hq
      set v0 := insert p V with hv0
      set r1 := ffRec g fuel ⟨p.x, p.y + 1⟩ v0 with hr1
      set r2 := ffRec g fuel ⟨p.x, p.y - 1⟩ r1.2 with hr2
      set r3 := ffRec g fuel ⟨p.x + 1, p.y⟩ r2.2 with hr3
      set r4 := ffRec g fuel ⟨p.x - 1, p.y⟩ r3.2 with hr4
      have hq4 : q ∈ r4.2 := hq
      by_cases hq0 : q ∈ v0
      · rw [hv0] at hq0
        rcases Finset.mem_insert.1 hq0 with rfl | hqV
        · exact Relation.ReflTransGen.refl
        · exact absurd hqV hnq
      · by_cases hq1 : q ∈ r1.2
        · have hrt : Relation.ReflTransGen (step_free g) ⟨p.x, p.y + 1⟩ q := by
            rw [hr1] at hq1
            exact ih _ _ _ hq1 hq0
          have hqf : free_cell g q := by
            rw [hr1] at hq1
            rcases Finset.mem_union.1 (ffRec_sound g fuel _ _ hq1) with h | h
            · exact absurd h hq0
            · exact (mem_free_finset g q).1 h
          exact rtg_lift g hpf (by simp [neighbor_cells]) hqf hrt
        · by_cases hq2 : q ∈ r2.2
          · have hrt : Relation.ReflTransGen (step_free g) ⟨p.x, p.y - 1⟩ q := by
              rw [hr2] at hq2
              exact ih _ _ _ hq2 hq1
            have hqf : free_cell g q := by
              rw [hr2] at hq2
              rcases Finset.mem_union.1 (ffRec_sound g fuel _ _ hq2) with h | h
              · exact absurd h hq1
              · exact (mem_free_finset g q).1 h
            exact rtg_lift g hpf (by simp [neighbor_cells]) hqf hrt
          · by_cases hq3 : q ∈ r3.2
            · have hrt : Relation.ReflTransGen (step_free g) ⟨p.x + 1, p.y⟩ q := by
                rw [hr3] at hq3
                exact ih _ _ _ hq3 hq2
              have hqf : free_cell g q := by
                rw [hr3] at hq3
                rcases Finset.mem_union.1 (ffRec_sound g fuel _ _ hq3) with h | h
                · exact absurd h hq2
                · exact (mem_free_finset g q).1 h
              exact rtg_lift g hpf (by simp [neighbor_cells]) hqf hrt
            · have hrt : Relation.ReflTransGen (step_free g) ⟨p.x - 1, p.y⟩ q := by
                rw [hr4] at hq4
                exact ih _ _ _ hq4 hq3
              have hqf : free_cell g q := by
                rw [hr4] at hq4
                rcases Finset.mem_union.1 (ffRec_sound g fuel _ _ hq4) with h | h
                · exact absurd h hq3
                · exact (mem_free_finset g q).1 h
              exact rtg_lift g hpf (by simp [neighbor_cells]) hqf hrt

theorem ffRec_closure (g : GameState) :
    ∀ (fuel : Nat) (p : Position) (V : Finset Position),
      (free_finset g \ V).card < fuel →
      ∀ c ∈ (ffRec g fuel p V).2, c ∉ V →
      ∀ q ∈ neighbor_cells c, free_cell g q → q ∈ (ffRec g fuel p V).2 := by
  intro fuel
  induction fuel with
  | zero =>
    intro p V h
    exact absurd h (Nat.not_lt_zero _)
  | succ fuel ih =>
    intro p V hfuel c hc hcV q hqnb hqf
    by_cases hstop : p ∈ V ∨ ¬ (is_valid_position g p = true) ∨ p ∈ flood_obstacles g
    · rw [ffRec_stop g fuel p V hstop] at hc
      exact absurd hc hcV
    · push_neg at hstop
      obtain ⟨h1, h2, h3⟩ := hstop
      have hpf : free_cell g p := (free_cell_iff g p).2 ⟨h2, h3⟩
      have hpF : p ∈ free_finset g := (mem_free_finset g p).2 hpf
      rw [ffRec_succ_else g fuel p V h1 h2 h3] at hc ⊢
      set v0 := insert p V with hv0
      set r1 := ffRec g fuel ⟨p.x, p.y + 1⟩ v0 with hr1
      set r2 := ffRec g fuel ⟨p.x, p.y - 1⟩ r1.2 with hr2
      set r3 := ffRec g fuel ⟨p.x + 1, p.y⟩ r2.2 with hr3
      set r4 := ffRec g fuel ⟨p.x - 1, p.y⟩ r3.2 with hr4
      have hc4 : c ∈ r4.2 := hc
      show q ∈ r4.2
      have b0 : (free_finset g \ v0).card < fuel := by
        have hsub : free_finset g \ v0 = (free_finset g \ V).erase p := by
          rw [hv0]
          ext x
          simp only [Finset.mem_sdiff, Finset.mem_erase, Finset.mem_insert]
          tauto
        rw [hsub, Finset.card_erase_of_mem (Finset.mem_sdiff.2 ⟨hpF, h1⟩)]
        have hpos : 0 < (free_finset g \ V).card :=
          Finset.card_pos.2 ⟨p, Finset.mem_sdiff.2 ⟨hpF, h1⟩⟩
        omega
      have m1 : v0 ⊆ r1.2 := by rw [hr1]; exact ffRec_mono g fuel _ _
      have m2 : r1.2 ⊆ r2.2 := by rw [hr2]; exact ffRec_mono g fuel _ _
      have m3 : r2.2 ⊆ r3.2 := by rw [hr3]; exact ffRec_mono g fuel _ _
      have m4 : r3.2 ⊆ r4.2 := by rw [hr4]; exact ffRec_mono g fuel _ _
      have b1 : (free_finset g \ r1.2).card < fuel :=
        lt_of_le_of_lt
          (Finset.card_le_card (Finset.sdiff_subset_sdiff (Finset.Subset.refl _) m1)) b0
      have b2 : (free_finset g \ r2.2).card < fuel :=
        lt_of_le_of_lt
          (Finset.card_le_card
            (Finset.sdiff_subset_sdiff (Finset.Subset.refl _) (m1.trans m2))) b0
      have b3 : (free_finset g \ r3.2).card < fuel :=
        lt_of_le_of_lt
          (Finset.card_le_card
            (Finset.sdiff_subset_sdiff (Finset.Subset.refl _) (m1.trans (m2.trans m3)))) b0
      have hfone : 1 ≤ fuel := by omega
      by_cases hc0 : c ∈ v0
      · have hcp : c = p := by
          rw [hv0] at hc0
          rcases Finset.mem_insert.1 hc0 with h | hx
          · exact h
          · exact absurd hx hcV
        subst hcp
        simp only [neighbor_cells, List.mem_cons, List.not_mem_nil, or_false] at hqnb
        rcases hqnb with rfl | rfl | rfl | rfl
        · exact m4 (m3 (m2 (by rw [hr1]; exact ffRec_start g fuel _ _ hfone hqf)))
        · exact m4 (m3 (by rw [hr2]; exact ffRec_start g fuel _ _ hfone hqf))
        · exact m4 (by rw [hr3]; exact ffRec_start g fuel _ _ hfone hqf)
        · rw [hr4]
          exact ffRec_start g fuel _ _ hfone hqf
      · by_cases hc1 : c ∈ r1.2
        · have hq1 : q ∈ r1.2 := by
            rw [hr1] at hc1 ⊢
            exact ih _ _ b0 c hc1 hc0 q hqnb hqf
          exact m4 (m3 (m2 hq1))
        · by_cases hc2 : c ∈ r2.2
          · have hq2 : q ∈ r2.2 := by
              rw [hr2] at hc2 ⊢
              exact ih _ _ b1 c hc2 hc1 q hqnb hqf
            exact m4 (m3 hq2)
          · by_cases hc3 : c ∈ r3.2
            · have hq3 : q ∈ r3.2 := by
                rw [hr3] at hc3 ⊢
                exact ih _ _ b2 c hc3 hc2 q hqnb hqf
              exact m4 hq3
            · rw [hr4] at hc4 ⊢
              exact ih _ _ b3 c hc4 hc3 q hqnb hqf

theorem flood_fill_eq_ncard (g : GameState) (start : Position) :
    calculate_flood_fill g start = (reach_set g start).ncard := by
  have hfuel : (free_finset g \ (∅ : Finset Position)).card <
      g.width.toNat * g.height.toNat + 1 := by
    rw [Finset.sdiff_empty]
    exact Nat.lt_succ_of_le (free_finset_card_le g)
  set r := ffRec g (g.width.toNat * g.height.toNat + 1) start ∅ with hrdef
  have hset : (r.2 : Set Position) = reach_set g start := by
    ext q
    simp only [Finset.coe_sort_coe, Set.mem_setOf_eq, reach_set, Finset.mem_coe]
    constructor
    · intro hq
      have hq2 : q ∈ (ffRec g (g.width.toNat * g.height.toNat + 1) start ∅).2 := by
        rw [← hrdef]
        exact hq
      have hfree : free_cell g q := by
        rcases Finset.mem_union.1 (ffRec_sound g _ _ _ hq2) with h | h
        · exact absurd h (Finset.not_mem_empty q)
        · exact (mem_free_finset g q).1 h
      exact ⟨ffRec_reach g _ _ _ q hq2 (Finset.not_mem_empty q), hfree⟩
    · rintro ⟨hrt, hfree⟩
      revert hfree
      induction hrt with
      | refl =>
        intro hfree
        rw [hrdef]
        exact ffRec_start g _ _ _ (by omega) hfree
      | tail hab hstep ihb =>
        intro hfq
        obtain ⟨hfb, hfq2, hnb⟩ := hstep
        have hb := ihb hfb
        rw [hrdef] at hb ⊢
        exact ffRec_closure g _ _ _ hfuel _ hb (Finset.not_mem_empty _) _ hnb hfq
  have hn : (reach_set g start).ncard = r.2.card := by
    rw [← hset, Set.ncard_coe_Finset]
  rw [hn]
  show r.1 = r.2.card
  rw [hrdef, ffRec_count g _ _ _, Finset.sdiff_empty]

theorem flood_fill_obstacle_start (g : GameState) (start : Position)
    (h : start ∈ flood_obstacles g) : calculate_flood_fill g start = 0 := by
  unfold calculate_flood_fill
  rw [ffRec_stop g _ _ _ (Or.inr (Or.inr h))]

/- Characterization of the closest-food scan. -/

theorem fcf_aux (pos : Position) :
    ∀ (l : List Position) (c : Position),
      ∃ f, (l.foldl (fun closest fd =>
          match closest with
          | none => some fd
          | some cc => if manhattan pos fd < manhattan pos cc then some fd else closest)
          (some c) = some f) ∧
        manhattan pos f ≤ manhattan pos c ∧
        (∀ y ∈ l, manhattan pos f ≤ manhattan pos y) ∧
        (f = c ∨ (∃ pre post, l = pre ++ f :: post ∧
          manhattan pos f < manhattan pos c ∧
          ∀ y ∈ pre, manhattan pos f < manhattan pos y)) := by
  intro l
  induction l with
  | nil =>
    intro c
    exact ⟨c, rfl, le_refl _, by simp, Or.inl rfl⟩
  | cons a tl ih =>
    intro c
    simp only [List.foldl_cons]
    by_cases hlt : manhattan pos a < manhattan pos c
    · rw [if_pos hlt]
      obtain ⟨f, hf, hle, hall, hfirst⟩ := ih a
      refine ⟨f, hf, hle.trans hlt.le, ?_, ?_⟩
      · intro y hy
        rcases List.mem_cons.1 hy with rfl | hy
        · exact hle
        · exact hall y hy
      · rcases hfirst with rfl | ⟨pre, post, htl, hfc, hpre⟩
        · exact Or.inr ⟨[], tl, by simp, hlt, by simp⟩
        · refine Or.inr ⟨a :: pre, post, by rw [htl]; simp, lt_trans hfc hlt, ?_⟩
          intro y hy
          rcases List.mem_cons.1 hy with rfl | hy
          · exact hfc
          · exact hpre y hy
    · rw [if_neg hlt]
      obtain ⟨f, hf, hle, hall, hfirst⟩ := ih c
      refine ⟨f, hf, hle, ?_, ?_⟩
      · intro y hy
        rcases List.mem_cons.1 hy with rfl | hy
        · exact hle.trans (not_lt.1 hlt)
        · exact hall y hy
      · rcases hfirst with rfl | ⟨pre, post, htl, hfc, hpre⟩
        · exact Or.inl rfl
        · refine Or.inr ⟨a :: pre, post, by rw [htl]; simp, hfc, ?_⟩
          intro y hy
          rcases List.mem_cons.1 hy with rfl | hy
          · exact lt_of_lt_of_le hfc (not_lt.1 hlt)
          · exact hpre y hy

theorem find_closest_food_spec (g : GameState) (pos : Position) (h : g.food ≠ []) :
    ∃ f pre post, find_closest_food g pos = some f ∧ g.food = pre ++ f :: post ∧
      (∀ y ∈ g.food, manhattan pos f ≤ manhattan pos y) ∧
      (∀ y ∈ pre, manhattan pos f < manhattan pos y) := by
  unfold find_closest_food
  cases hl : g.food with
  | nil => exact absurd hl h
  | cons a tl =>
    simp only [List.foldl_cons]
    obtain ⟨f, hf, hle, hall, hfirst⟩ := fcf_aux pos tl a
    rcases hfirst with rfl | ⟨pre, post, htl, hfc, hpre⟩
    · refine ⟨f, [], tl, hf, by simp, ?_, by simp⟩
      intro y hy
      rcases List.mem_cons.1 hy with rfl | hy
      · exact le_refl _
      · exact hall y hy
    · refine ⟨f, a :: pre, post, hf, by rw [htl]; simp, ?_, ?_⟩
      · intro y hy
        rcases List.mem_cons.1 hy with rfl | hy
        · exact hle
        · exact hall y hy
      · intro y hy
        rcases List.mem_cons.1 hy with rfl | hy
        · exact hfc
        · exact hpre y hy

/- First-maximal analysis of the selection fold. -/

theorem foldl_first_max (m : Direction → Score) (r : Direction)
    (hr : [Direction.DOWN, Direction.LEFT, Direction.RIGHT].foldl
        (fun best d => if Score.ltb (m best) (m d) then d else best) Direction.UP = r) :
    (∀ d, Score.ltb (m r) (m d) = false) ∧
    (∀ d, dir_index d < dir_index r → Score.ltb (m d) (m r) = true) := by
  subst hr
  simp only [List.foldl_cons, List.foldl_nil]
  cases h1 : Score.ltb (m Direction.UP) (m Direction.DOWN) with
  | false =>
    simp only [h1, Bool.false_eq_true, if_false]
    cases h2 : Score.ltb (m Direction.UP) (m Direction.LEFT) with
    | false =>
      simp only [h2, Bool.false_eq_true, if_false]
      cases h3 : Score.ltb (m Direction.UP) (m Direction.RIGHT) with
      | false =>
        simp only [h3, Bool.false_eq_true, if_false]
        constructor
        · intro d
          cases d
          · exact Score.ltb_irrefl _
          · exact h1
          · exact h2
          · exact h3
        · intro d hd
          cases d <;> exact absurd hd (by decide)
      | true =>
        simp only [h3, if_true]
        constructor
        · intro d
          cases d
          · exact Score.ltb_asymm h3
          · exact Score.ltb_asymm (Score.ltb_lt_of_le_of_lt h1 h3)
          · exact Score.ltb_asymm (Score.ltb_lt_of_le_of_lt h2 h3)
          · exact Score.ltb_irrefl _
        · intro d hd
          cases d
          · exact h3
          · exact Score.ltb_lt_of_le_of_lt h1 h3
          · exact Score.ltb_lt_of_le_of_lt h2 h3
          · exact absurd hd (by decide)
    | true =>
      simp only [h2, if_true]
      cases h3 : Score.ltb (m Direction.LEFT) (m Direction.RIGHT) with
      | false =>
        simp only [h3, Bool.false_eq_true, if_false]
        constructor
        · intro d
          cases d
          · exact Score.ltb_asymm h2
          · exact Score.ltb_asymm (Score.ltb_lt_of_le_of_lt h1 h2)
          · exact Score.ltb_irrefl _
          · exact h3
        · intro d hd
          cases d
          · exact h2
          · exact Score.ltb_lt_of_le_of_lt h1 h2
          · exact absurd hd (by decide)
          · exact absurd hd (by decide)
      | true =>
        simp only [h3, if_true]
        constructor
        · intro d
          cases d
          · exact Score.ltb_asymm (Score.ltb_trans h2 h3)
          · exact Score.ltb_asymm
              (Score.ltb_lt_of_le_of_lt h1 (Score.ltb_trans h2 h3))
          · exact Score.ltb_asymm h3
          · exact Score.ltb_irrefl _
        · intro d hd
          cases d
          · exact Score.ltb_trans h2 h3
          · exact Score.ltb_lt_of_le_of_lt h1 (Score.ltb_trans h2 h3)
          · exact h3
          · exact absurd hd (by decide)
  | true =>
    simp only [h1, if_true]
    cases h2 : Score.ltb (m Direction.DOWN) (m Direction.LEFT) with
    | false =>
      simp only [h2, Bool.false_eq_true, if_false]
      cases h3 : Score.ltb (m Direction.DOWN) (m Direction.RIGHT) with
      | false =>
        simp only [h3, Bool.false_eq_true, if_false]
        constructor
        · intro d
          cases d
          · exact Score.ltb_asymm h1
          · exact Score.ltb_irrefl _
          · exact h2
          · exact h3
        · intro d hd
          cases d
          · exact h1
          · exact absurd hd (by decide)
          · exact absurd hd (by decide)
          · exact absurd hd (by decide)
      | true =>
        simp only [h3, if_true]
        constructor
        · intro d
          cases d
          · exact Score.ltb_asymm (Score.ltb_trans h1 h3)
          · exact Score.ltb_asymm h3
          · exact Score.ltb_asymm (Score.ltb_lt_of_le_of_lt h2 h3)
          · exact Score.ltb_irrefl _
        · intro d hd
          cases d
          · exact Score.ltb_trans h1 h3
          · exact h3
          · exact Score.ltb_lt_of_le_of_lt h2 h3
          · exact absurd hd (by decide)
    | true =>
      simp only [h2, if_true]
      cases h3 : Score.ltb (m Direction.LEFT) (m Direction.RIGHT) with
      | false =>
        simp only [h3, Bool.false_eq_true, if_false]
        constructor
        · intro d
          cases d
          · exact Score.ltb_asymm (Score.ltb_trans h1 h2)
          · exact Score.ltb_asymm h2
          · exact Score.ltb_irrefl _
          · exact h3
        · intro d hd
          cases d
          · exact Score.ltb_trans h1 h2
          · exact h2
          · exact absurd hd (by decide)
          · exact absurd hd (by decide)
      | true =>
        simp only [h3, if_true]
        constructor
        · intro d
          cases d
          · exact Score.ltb_asymm (Score.ltb_trans (Score.ltb_trans h1 h2) h3)
          · exact Score.ltb_asymm (Score.ltb_trans h2 h3)
          · exact Score.ltb_asymm h3
          · exact Score.ltb_irrefl _
        · intro d hd
          cases d
          · exact Score.ltb_trans (Score.ltb_trans h1 h2) h3
          · exact Score.ltb_trans h2 h3
          · exact h3
          · exact absurd hd (by decide)

/- Claim theorems. -/

/-- C1: for every snapshot, `decideMove` returns one of the four Direction
values (the embedding is total, so it never fails, even when all four
scores are the sentinel), no direction's final score strictly beats the
returned direction's, and every direction strictly earlier in the
enumeration order UP, DOWN, LEFT, RIGHT has a strictly smaller final
score — together: the result is the first maximal direction.  (Python's
`max` over the dict in insertion order keeps the current best unless a
strictly greater score appears.) -/
theorem decide_move_returns_first_maximal (g : GameState) :
    (decideMove g = Direction.UP ∨ decideMove g = Direction.DOWN ∨
      decideMove g = Direction.LEFT ∨ decideMove g = Direction.RIGHT) ∧
    (∀ d, Score.ltb (final_moves g (decideMove g)) (final_moves g d) = false) ∧
    (∀ d, dir_index d < dir_index (decideMove g) →
      Score.ltb (final_moves g d) (final_moves g (decideMove g)) = true) := by
  have h := foldl_first_max (final_moves g) (decideMove g) rfl
  refine ⟨?_, h.1, h.2⟩
  cases hd : decideMove g
  · exact Or.inl rfl
  · exact Or.inr (Or.inl rfl)
  · exact Or.inr (Or.inr (Or.inl rfl))
  · exact Or.inr (Or.inr (Or.inr rfl))

/-- Witness for C1 at the corner snapshot `gCorner`, where the decision is
RIGHT: UP (earlier in the order) has a strictly smaller score. -/
theorem decide_move_returns_first_maximal_witness :
    Score.ltb (final_moves gCorner Direction.UP)
      (final_moves gCorner (decideMove gCorner)) = true :=
  (decide_move_returns_first_maximal gCorner).2.2 Direction.UP (by decide)

/-- C3: a direction's final score is the negative-infinity sentinel exactly
when its candidate position is off-board or coincides with a non-tail body
segment of some snake; the food step maps the sentinel to itself and a
finite score to a finite score, so non-sentinel directions keep finite
scores and sentinel directions still reach the final max-selection. -/
theorem sentinel_iff_offboard_or_collision (g : GameState) (d : Direction) :
    final_moves g d = Score.ninf ↔
      (¬ is_valid_position g (get_next_position g d) = true ∨
        has_body_collision g (get_next_position g d)) := by
  rw [final_moves, evaluate_food_ninf_iff, get_safe_moves_ninf_iff]

/-- C4: the flood fill returns the number of board cells reachable from the
start via 4-directional moves that stay on the board and never enter an
obstacle cell, each counted at most once; the obstacle set is every snake's
full body, except that snakes carrying the acting snake's id lose their
tail segment exactly when the acting snake's health is below 100. -/
theorem flood_fill_counts_reachable_cells (g : GameState) (start : Position) :
    calculate_flood_fill g start = (reach_set g start).ncard ∧
    (∀ q : Position, q ∈ flood_obstacles g ↔
      ∃ s ∈ g.snakes, q ∈ (if s.id = g.you.id ∧ g.health < 100
        then s.body.dropLast else s.body)) := by
  refine ⟨flood_fill_eq_ncard g start, ?_⟩
  intro q
  simp [flood_obstacles]

/-- C2: the safety score that governs the decision is the flood-fill-based
§4.4 scoring (150-point head-to-head, 30-per-cell space penalty with the
`min(50, space/2)` bonus branch, 10-point wall penalties): `get_safe_moves`
equals the spec scoring on on-board candidates and the sentinel off-board.
The earlier, simpler definition (75/10-per-cell/20, no bonus) is dead: in
Python the second method definition replaces it, and it disagrees with the
governing scoring on the concrete snapshot `gTwo` (100 versus 112.5 at
candidate (2,3)), so resuming it would change behavior. -/
theorem governing_safety_is_spec_first_is_dead :
    (∀ (g : GameState) (d : Direction), get_safe_moves g d =
      (if is_valid_position g (get_next_position g d)
        then spec_position_safety g (get_next_position g d) else Score.ninf)) ∧
    calculate_position_safety_first gTwo ⟨2, 3⟩ ≠ spec_position_safety gTwo ⟨2, 3⟩ := by
  constructor
  · intro g d
    unfold get_safe_moves
    split_ifs with h
    · exact safety_eq_spec g _
    · rfl
  · have hff : calculate_flood_fill gTwo ⟨2, 3⟩ = 25 := by decide
    have h1 : calculate_position_safety_first gTwo ⟨2, 3⟩ = Score.val 100 := by
      unfold calculate_position_safety_first
      rw [if_neg (by decide)]
      simp only [hff]
      norm_num [opponents, gTwo, my_length]
    have h2 : spec_position_safety gTwo ⟨2, 3⟩ = Score.val (225 / 2) := by
      rw [← safety_eq_spec, safety_decomp gTwo ⟨2, 3⟩ (by decide)]
      have hsa : space_adjust gTwo ⟨2, 3⟩ = 25 / 2 := by
        unfold space_adjust
        rw [hff]
        norm_num [my_length, gTwo, min_def]
      have hh2 : h2h_total gTwo ⟨2, 3⟩ = 0 := by
        have hop : opponents gTwo = [] := rfl
        simp [h2h_total, hop]
      have hwp : wall_penalty gTwo ⟨2, 3⟩ = 0 := by
        norm_num [wall_penalty, gTwo]
      rw [hsa, hh2, hwp]
      norm_num
    rw [h1, h2]
    intro hcon
    have := Score.val.inj hcon
    norm_num at this

/-- C5: for an on-board, non-colliding candidate, with `space` the flood
fill count and `length` the acting snake's body length: when
`space ≤ length` the score is `100 - 30*(length - space)` plus the
head-to-head and wall adjustments, and the subtracted amount is
nonnegative (the step never increases the score); when `space > length`
the score instead gains `min(50, space/2)`. -/
theorem space_step_penalty_and_bonus (g : GameState) (pos : Position)
    (hv : is_valid_position g pos = true)
    (hnc : ¬ has_body_collision g pos) :
    (calculate_flood_fill g pos ≤ my_length g →
      calculate_position_safety g pos = Score.val
        (100 - 30 * ((my_length g : ℚ) - (calculate_flood_fill g pos : ℚ))
          + h2h_total g pos - wall_penalty g pos) ∧
      0 ≤ 30 * ((my_length g : ℚ) - (calculate_flood_fill g pos : ℚ))) ∧
    (my_length g < calculate_flood_fill g pos →
      calculate_position_safety g pos = Score.val
        (100 + min 50 ((calculate_flood_fill g pos : ℚ) / 2)
          + h2h_total g pos - wall_penalty g pos)) := by
  constructor
  · intro hle
    have hleq : ((calculate_flood_fill g pos : ℚ)) ≤ ((my_length g : ℚ)) := by
      exact_mod_cast hle
    constructor
    · rw [safety_decomp g pos hnc]
      unfold space_adjust
      rw [if_pos hleq]
      simp only [Score.val.injEq]
      ring
    · exact mul_nonneg (by norm_num) (sub_nonneg.2 hleq)
  · intro hlt
    have hltq : ((my_length g : ℚ)) < ((calculate_flood_fill g pos : ℚ)) := by
      exact_mod_cast hlt
    rw [safety_decomp g pos hnc]
    unfold space_adjust
    rw [if_neg (not_le.2 hltq)]

/-- Witness for C5 at `gRow` (snake of length 3 walling off the bottom row,
candidate (1,0) with reachable space 3 = length): the penalty branch
applies and the subtracted amount is nonnegative. -/
theorem space_step_penalty_and_bonus_witness :
    calculate_position_safety gRow ⟨1, 0⟩ = Score.val
      (100 - 30 * ((my_length gRow : ℚ) - (calculate_flood_fill gRow ⟨1, 0⟩ : ℚ))
        + h2h_total gRow ⟨1, 0⟩ - wall_penalty gRow ⟨1, 0⟩) ∧
    0 ≤ 30 * ((my_length gRow : ℚ) - (calculate_flood_fill gRow ⟨1, 0⟩ : ℚ)) :=
  (space_step_penalty_and_bonus gRow ⟨1, 0⟩ (by decide) (by decide)).1 (by decide)

/-- C6: for an on-board, non-colliding candidate, the safety score equals
100 plus the space adjustment, plus the sum over opponents of the
head-to-head contribution (−150 when the opponent's head is at Manhattan
distance exactly 1 and the acting snake is not longer, +25 when it is
adjacent and the acting snake is longer, 0 otherwise), minus the wall
penalty. -/
theorem head_to_head_adjustment (g : GameState) (pos : Position)
    (hv : is_valid_position g pos = true)
    (hnc : ¬ has_body_collision g pos) :
    calculate_position_safety g pos = Score.val
      (100 + space_adjust g pos +
        ((opponents g).map (fun opp =>
          if manhattan pos (snake_head opp) = 1 then
            if my_length g ≤ opp.body.length then (-150 : ℚ) else 25
          else 0)).sum - wall_penalty g pos) := by
  rw [safety_decomp g pos hnc]
  rfl

/-- Witness for C6 at `gAdj`: the candidate (2,3) is adjacent to the head
of a longer opponent, so the −150 branch contributes. -/
theorem head_to_head_adjustment_witness :
    calculate_position_safety gAdj ⟨2, 3⟩ = Score.val
      (100 + space_adjust gAdj ⟨2, 3⟩ + ((opponents gAdj).map (fun opp =>
        if manhattan (⟨2, 3⟩ : Position) (snake_head opp) = 1 then
          if my_length gAdj ≤ opp.body.length then (-150 : ℚ) else 25
        else 0)).sum - wall_penalty gAdj ⟨2, 3⟩) :=
  head_to_head_adjustment gAdj ⟨2, 3⟩ (by decide) (by decide)

/-- C10: when the candidate cell itself is in the flood-fill obstacle set
(an opponent's tail, or the acting snake's own tail at health 100), the
flood fill returns 0 immediately, and if the cell is not an
immediate-collision rejection its safety score carries the maximal
reachable-space penalty `30 * length`: it equals
`100 - 30*length + head-to-head - walls`. -/
theorem obstacle_start_zero_space (g : GameState) (pos : Position)
    (hobs : pos ∈ flood_obstacles g)
    (hnc : ¬ has_body_collision g pos) :
    calculate_flood_fill g pos = 0 ∧
    calculate_position_safety g pos = Score.val
      (100 - 30 * (my_length g : ℚ) + h2h_total g pos - wall_penalty g pos) := by
  have h0 : calculate_flood_fill g pos = 0 := flood_fill_obstacle_start g pos hobs
  refine ⟨h0, ?_⟩
  rw [safety_decomp g pos hnc]
  unfold space_adjust
  rw [h0]
  rw [if_pos (by simp)]
  simp only [Score.val.injEq]
  push_cast
  ring

/-- Witness for C10 at `gTail`: the candidate (3,3) is the tail of the
three-segment opponent, an obstacle but not a collision cell. -/
theorem obstacle_start_zero_space_witness :
    calculate_flood_fill gTail ⟨3, 3⟩ = 0 ∧
    calculate_position_safety gTail ⟨3, 3⟩ = Score.val
      (100 - 30 * (my_length gTail : ℚ) + h2h_total gTail ⟨3, 3⟩
        - wall_penalty gTail ⟨3, 3⟩) :=
  obstacle_start_zero_space gTail ⟨3, 3⟩ (by decide) (by decide)

/-- C8 counterexample: on the 3×3 board `gSplit` whose single snake occupies
the middle column (health 100, so the whole body is an obstacle), flood
fill from the on-board cell (0,0) returns 3, not
`w*h - #obstacles = 9 - 3 = 6`: the snake splits the board and only the
left column is reachable. -/
theorem flood_fill_not_board_minus_obstacles :
    calculate_flood_fill gSplit ⟨0, 0⟩ ≠
      gSplit.width.toNat * gSplit.height.toNat -
        (flood_obstacles gSplit).toFinset.card := by decide

/-- C8 (amended): on a board with one snake, flood fill from an on-board
start returns the number of free cells reachable from it; when the start is
itself free and every free cell is reachable from it, this equals `w*h`
minus the number of distinct obstacle cells. -/
theorem flood_fill_amended (g : GameState) (start : Position)
    (hone : g.snakes = [g.you])
    (hv : is_valid_position g start = true)
    (hseg : ∀ p ∈ flood_obstacles g, is_valid_position g p = true) :
    calculate_flood_fill g start = (reach_set g start).ncard ∧
    (free_cell g start →
      (∀ q : Position, free_cell g q → Relation.ReflTransGen (step_free g) start q) →
      calculate_flood_fill g start =
        g.width.toNat * g.height.toNat - (flood_obstacles g).toFinset.card) := by
  refine ⟨flood_fill_eq_ncard g start, ?_⟩
  intro hfree hconn
  rw [flood_fill_eq_ncard g start]
  have hreach : reach_set g start = (free_finset g : Set Position) := by
    ext q
    simp only [reach_set, Set.mem_setOf_eq, Finset.mem_coe, mem_free_finset]
    constructor
    · rintro ⟨h1, h2⟩
      exact h2
    · intro hq
      exact ⟨hconn q hq, hq⟩
  rw [hreach, Set.ncard_coe_Finset]
  have hobsub : (flood_obstacles g).toFinset ⊆ board_finset g := by
    intro p hp
    rw [mem_board_finset]
    exact hseg p (List.mem_toFinset.1 hp)
  have hfree_eq : free_finset g = board_finset g \ (flood_obstacles g).toFinset := by
    ext p
    simp only [mem_free_finset, free_cell_iff, Finset.mem_sdiff, mem_board_finset,
      List.mem_toFinset]
  rw [hfree_eq, Finset.card_sdiff hobsub]
  have hinj : Function.Injective
      (fun q : ℕ × ℕ => (⟨(q.1 : Int), (q.2 : Int)⟩ : Position)) := by
    rintro ⟨a1, a2⟩ ⟨b1, b2⟩ h
    simp only [Position.mk.injEq] at h
    obtain ⟨h1, h2⟩ := h
    simp only [Prod.mk.injEq]
    exact ⟨by exact_mod_cast h1, by exact_mod_cast h2⟩
  have hbc : (board_finset g).card = g.width.toNat * g.height.toNat := by
    unfold board_finset
    rw [Finset.card_image_of_injective _ hinj, Finset.card_product,
      Finset.card_range, Finset.card_range]
  rw [hbc]

/-- Helper for concrete reachability witnesses: a single decidable
free-cell step. -/
theorem step_free_dec (g : GameState) (a b : Position)
    (h1 : free_cellb g a = true) (h2 : free_cellb g b = true)
    (h3 : decide (b ∈ neighbor_cells a) = true) : step_free g a b :=
  ⟨h1, h2, of_decide_eq_true h3⟩

/-- Witness for the amended C8 at `gConn` (two obstacle cells, connected
free region): flood fill from (2,2) returns 9 − 2 = 7. -/
theorem flood_fill_amended_witness :
    calculate_flood_fill gConn ⟨2, 2⟩ =
      gConn.width.toNat * gConn.height.toNat - (flood_obstacles gConn).toFinset.card := by
  have hconn : ∀ q : Position, free_cell gConn q →
      Relation.ReflTransGen (step_free gConn) (⟨2, 2⟩ : Position) q := by
    intro q hq
    have hq2 : q ∈ free_finset gConn := (mem_free_finset gConn q).2 hq
    have henum : free_finset gConn =
        ({⟨2, 0⟩, ⟨0, 1⟩, ⟨1, 1⟩, ⟨2, 1⟩, ⟨0, 2⟩, ⟨1, 2⟩, ⟨2, 2⟩} : Finset Position) := by
      decide
    rw [henum] at hq2
    have s21 : step_free gConn ⟨2, 2⟩ ⟨2, 1⟩ :=
      step_free_dec _ _ _ (by decide) (by decide) (by decide)
    have s20 : step_free gConn ⟨2, 1⟩ ⟨2, 0⟩ :=
      step_free_dec _ _ _ (by decide) (by decide) (by decide)
    have s11 : step_free gConn ⟨2, 1⟩ ⟨1, 1⟩ :=
      step_free_dec _ _ _ (by decide) (by decide) (by decide)
    have s01 : step_free gConn ⟨1, 1⟩ ⟨0, 1⟩ :=
      step_free_dec _ _ _ (by decide) (by decide) (by decide)
    have s12 : step_free gConn ⟨2, 2⟩ ⟨1, 2⟩ :=
      step_free_dec _ _ _ (by decide) (by decide) (by decide)
    have s02 : step_free gConn ⟨1, 2⟩ ⟨0, 2⟩ :=
      step_free_dec _ _ _ (by decide) (by decide) (by decide)
    simp only [Finset.mem_insert, Finset.mem_singleton] at hq2
    rcases hq2 with rfl | rfl | rfl | rfl | rfl | rfl | rfl
    · exact Relation.ReflTransGen.tail (Relation.ReflTransGen.single s21) s20
    · exact Relation.ReflTransGen.tail
        (Relation.ReflTransGen.tail (Relation.ReflTransGen.single s21) s11) s01
    · exact Relation.ReflTransGen.tail (Relation.ReflTransGen.single s21) s11
    · exact Relation.ReflTransGen.single s21
    · exact Relation.ReflTransGen.tail (Relation.ReflTransGen.single s12) s02
    · exact Relation.ReflTransGen.single s12
    · exact Relation.ReflTransGen.refl
  exact (flood_fill_amended gConn ⟨2, 2⟩ rfl (by decide) (by decide)).2 (by decide) hconn

/-- C7: for a direction whose base score is finite, on a board with food:
the scan finds the nearest food `f` to the candidate by Manhattan distance,
first minimal in encounter order; if no opponent's head is strictly closer
to `f` than the acting snake's current head, the final score gains
`max(50 - 5*d, 0) * w` with `d` the candidate-to-food distance and `w` the
health weight (2 below 50, 1 below 75, 1/2 otherwise, per `food_weight`);
if some opponent is strictly closer the final score is unchanged. -/
theorem food_adjustment_uncontested_nearest (g : GameState) (d : Direction) (q : ℚ)
    (hfood : g.food ≠ []) (hq : get_safe_moves g d = Score.val q) :
    ∃ f pre post, find_closest_food g (get_next_position g d) = some f ∧
      g.food = pre ++ f :: post ∧
      (∀ y ∈ g.food,
        manhattan (get_next_position g d) f ≤ manhattan (get_next_position g d) y) ∧
      (∀ y ∈ pre,
        manhattan (get_next_position g d) f < manhattan (get_next_position g d) y) ∧
      ((∀ opp ∈ opponents g,
          ¬ manhattan (snake_head opp) f < manhattan (my_head g) f) →
        final_moves g d = Score.val (q +
          max (50 - (manhattan (get_next_position g d) f : ℚ) * 5) 0 * food_weight g)) ∧
      ((∃ opp ∈ opponents g,
          manhattan (snake_head opp) f < manhattan (my_head g) f) →
        final_moves g d = Score.val q) := by
  obtain ⟨f, pre, post, hfind, hsplit, hmin, hpre⟩ :=
    find_closest_food_spec g (get_next_position g d) hfood
  refine ⟨f, pre, post, hfind, hsplit, hmin, hpre, ?_, ?_⟩
  · intro huncont
    have hclose : am_closest_to_food g f = true := by
      unfold am_closest_to_food
      rw [List.all_eq_true]
      intro opp hopp
      simpa using huncont opp hopp
    unfold final_moves evaluate_food_moves
    rw [hq, hfind]
    simp only [hclose, if_true]
    rfl
  · rintro ⟨opp, hopp, hcl⟩
    have hncl : am_closest_to_food g f = false := by
      cases hb : am_closest_to_food g f with
      | false => rfl
      | true =>
        rw [am_closest_to_food, List.all_eq_true] at hb
        have := hb opp hopp
        simp at this
        exact absurd hcl (not_lt.2 this)
    unfold final_moves evaluate_food_moves
    rw [hq, hfind]
    simp only [hncl, Bool.false_eq_true, if_false]

/-- Witness for C7 at `gFood` (no opponents, one pellet at (0,0), health 60
so weight 1): the UP candidate (2,3) has base score 225/2 and the
uncontested food bonus applies. -/
theorem food_adjustment_uncontested_nearest_witness :
    final_moves gFood Direction.UP = Score.val (225 / 2 +
      max (50 - (manhattan (get_next_position gFood Direction.UP) ⟨0, 0⟩ : ℚ) * 5) 0 *
        food_weight gFood) := by
  have hff : calculate_flood_fill gFood ⟨2, 3⟩ = 25 := by decide
  have hbase : get_safe_moves gFood Direction.UP =
      calculate_position_safety gFood ⟨2, 3⟩ := rfl
  have hq : get_safe_moves gFood Direction.UP = Score.val (225 / 2) := by
    rw [hbase, safety_decomp gFood ⟨2, 3⟩ (by decide)]
    have hsa : space_adjust gFood ⟨2, 3⟩ = 25 / 2 := by
      unfold space_adjust
      rw [hff]
      norm_num [my_length, gFood, min_def]
    have hh2 : h2h_total gFood ⟨2, 3⟩ = 0 := by
      have hop : opponents gFood = [] := rfl
      simp [h2h_total, hop]
    have hwp : wall_penalty gFood ⟨2, 3⟩ = 0 := by
      norm_num [wall_penalty, gFood]
    rw [hsa, hh2, hwp]
    norm_num
  obtain ⟨f, pre, post, hfind, hsplit, hmin, hpre, huncont, hcont⟩ :=
    food_adjustment_uncontested_nearest gFood Direction.UP (225 / 2) (by decide) hq
  have hfeq : find_closest_food gFood (get_next_position gFood Direction.UP) =
      some ⟨0, 0⟩ := by decide
  rw [hfeq] at hfind
  obtain rfl : f = (⟨0, 0⟩ : Position) := (Option.some_inj.1 hfind).symm
  apply huncont
  intro opp hopp
  have hop : opponents gFood = [] := rfl
  rw [hop] at hopp
  exact absurd hopp (List.not_mem_nil opp)
